import Mathlib

/-!
Verification of the career-paths node-graph pipeline
(`network_to_3D_4.py`): tabular loading into a node/edge graph,
force-directed 3D layout, and serialization metrics.

The Python source is shallowly embedded below.  Text cells are modelled
as `Option String` (a CSV `DictReader` fills cells missing from a short
row with `None`); Python exceptions are modelled with `Except PyErr`;
floating-point numbers appearing in the loader are modelled as `ℚ`, and
the layout-engine arithmetic is stated over an arbitrary field with the
square root supplied as a parameter (instantiated at `ℝ` and `Real.sqrt`
in the theorems about layout geometry).
-/

namespace Career

/-- Python exceptions that the modelled code can raise. -/
inductive PyErr where
  | fileNotFound
  | attributeError
  | valueError
deriving DecidableEq, Repr

/-- Whitespace characters recognised by Python `str.strip` / `\s`
(ASCII fragment, which is all the source data uses). -/
def pyIsSpace (c : Char) : Bool :=
  c = ' ' || c = '\t' || c = '\n' || c = '\r' || c = '\x0b' || c = '\x0c'

/-- Python `str.strip()` on a character list. -/
def trimC (l : List Char) : List Char :=
  ((l.dropWhile pyIsSpace).reverse.dropWhile pyIsSpace).reverse

/-- Python `str.strip()`. -/
def pyStrip (s : String) : String := String.mk (trimC s.data)

/-- Does the second list start with the first one? -/
def leadMatch : List Char → List Char → Bool
  | [], _ => true
  | _ :: _, [] => false
  | a :: as, b :: bs => a = b && leadMatch as bs

/-- Python substring containment (`needle in hay`). -/
def hasSub (needle : List Char) : List Char → Bool
  | [] => leadMatch needle []
  | c :: t => leadMatch needle (c :: t) || hasSub needle t

/-- `emoji_to_num`, lines 22-56: the familiarity map in source order. -/
def famMap : List (String × Nat) :=
  [("🏆 Profissional", 5), ("🏆", 5),
   ("💪 Confiante", 4), ("💪", 4),
   ("📚 Familiar", 3), ("📚", 3),
   ("🌱 Iniciante", 2), ("🌱", 2),
   ("❓ Desconhecida", 1), ("❓", 1)]

/-- `emoji_to_num`: the interest/market map in source order. -/
def intMap : List (String × Nat) :=
  [("⭐", 5), ("🔥", 4), ("👍", 3), ("😐", 2), ("🤷", 1)]

/-- First map entry whose key occurs as a substring of `s` (the
`for key in ...: if key in emoji_str` scan). -/
def firstSub (m : List (String × Nat)) (s : List Char) : Option Nat :=
  m.findSome? (fun kv => if hasSub kv.1.data s then some kv.2 else none)

/-- `emoji_to_num(emoji_str)`, lines 22-56.  The argument is `Option
String` because a cell absent from a short CSV row arrives as `None`
(falsy, so the function returns 0 for it). -/
def emoji_to_num (v : Option String) : Nat :=
  match v with
  | none => 0
  | some s0 =>
    if s0 = "" then 0
    else
      let s := pyStrip s0
      match List.lookup s famMap with
      | some n => n
      | none =>
        match List.lookup s intMap with
        | some n => n
        | none =>
          match firstSub famMap s.data with
          | some n => n
          | none => (firstSub intMap s.data).getD 0

/-! ### The relation-cell URL-annotation regex

`parse_relations` (lines 216-221) removes a trailing annotation matching
the Python regex `\s+\([^()]*%.*?\.(csv|md)\)\s*$` (DOTALL).  Because
the pattern is anchored at the end of the string, `re.sub` deletes the
whole suffix starting at the leftmost position where a match begins.
The matcher is written out explicitly below. -/

/-- Does the list match `\.(csv|md)\)\s*$` at its head? -/
def extAt (l : List Char) : Bool :=
  (leadMatch ".csv)".data l && (l.drop 5).all pyIsSpace) ||
  (leadMatch ".md)".data l && (l.drop 4).all pyIsSpace)

/-- Does `.*?\.(csv|md)\)\s*$` match the list (i.e. does
`\.(csv|md)\)\s*$` match at some position)? -/
def hasExtSomewhere : List Char → Bool
  | [] => false
  | c :: t => extAt (c :: t) || hasExtSomewhere t

/-- Does `[^()]*%.*?\.(csv|md)\)\s*$` match the list: a paren-free
prefix, then a percent sign, then a recognised extension suffix. -/
def midPercent : List Char → Bool
  | [] => false
  | c :: t =>
    if c = '(' || c = ')' then false
    else (c = '%' && hasExtSomewhere t) || midPercent t

/-- After at least one whitespace character has been consumed: the rest
of `\s+\(` followed by the body of the annotation. -/
def wsAnnTail : List Char → Bool
  | [] => false
  | c :: t => if c = '(' then midPercent t else pyIsSpace c && wsAnnTail t

/-- Does the whole list match `\s+\([^()]*%.*?\.(csv|md)\)\s*$`? -/
def wsAnn : List Char → Bool
  | [] => false
  | c :: t => pyIsSpace c && wsAnnTail t

/-- `re.sub(pattern, '', target)`: delete the suffix beginning at the
leftmost position where the (end-anchored) annotation pattern matches. -/
def subAnnAux : List Char → List Char
  | [] => []
  | c :: t => if wsAnn (c :: t) then [] else c :: subAnnAux t

/-- The depth-tracking comma split of `parse_relations`, lines 195-214:
a comma separates only at parenthesis depth 0 (the depth counter is an
integer and may go negative on unbalanced closing parens). -/
def relSplit (depth : Int) (cur : List Char) : List Char → List (List Char)
  | [] => if trimC cur = [] then [] else [trimC cur]
  | c :: t =>
    if c = '(' then relSplit (depth + 1) (cur ++ [c]) t
    else if c = ')' then relSplit (depth - 1) (cur ++ [c]) t
    else if c = ',' && depth = 0 then
      (if trimC cur = [] then [] else [trimC cur]) ++ relSplit depth [] t
    else relSplit depth (cur ++ [c]) t

/-- `parse_relations(raw_str)`, lines 193-223: split on top-level
commas, strip each candidate, remove a trailing URL-encoded filename
annotation, and drop candidates that become empty. -/
def parse_relations (raw : String) : List String :=
  (relSplit 0 [] raw.data).filterMap (fun t =>
    let cn := trimC (subAnnAux t)
    if cn = [] then none else some (String.mk cn))

/-! ### Data model -/

/-- A directed edge (`{'source': ..., 'target': ...}`). -/
structure EdgeRec where
  source : String
  target : String
deriving DecidableEq, Repr

/-- A node record, lines 136-151 plus the degree counts added on lines
246-248.  Coordinates have type `κ` (the field modelling Python
floats); the rating and score cells keep their raw text (`Option
String`: a short row stores `None`). -/
structure NodeRec (κ : Type) where
  name : String
  familiarity : Option String
  familiarity_num : Nat
  interest : Option String
  interest_num : Nat
  market : Option String
  market_num : Nat
  req_score : ℚ
  master_score : ℚ
  req_indirect : ℚ
  dep_indirect : ℚ
  x : κ
  y : κ
  z : κ
  req_direct : Nat
  dep_direct : Nat
deriving DecidableEq, Repr

/-- One CSV data row after column resolution: the cell of each
recognised column, `none` when the row is shorter than the header
(Python `csv.DictReader` fills such cells with `None`). -/
structure Row where
  nameCell : Option String
  depsCell : Option String
  reqsCell : Option String
  famCell : Option String
  intCell : Option String
  mktCell : Option String
  reqScoreCell : Option String
  masterScoreCell : Option String
  reqIndirectCell : Option String
  depIndirectCell : Option String
deriving DecidableEq, Repr

/-- Which of the recognised columns were found in the header
(lines 87-115); a missing column makes the corresponding key `None`
in the source, so the row cell is never consulted. -/
structure Cols where
  hasName : Bool
  hasDeps : Bool
  hasReqs : Bool
  hasFam : Bool
  hasInt : Bool
  hasMkt : Bool
  hasReqScore : Bool
  hasMasterScore : Bool
  hasReqIndirect : Bool
  hasDepIndirect : Bool
deriving DecidableEq, Repr

/-! ### Assoc-list model of the Python dicts

Python dicts iterate in insertion order and keep the original position
of a key when its value is overwritten; `setA` reproduces that. -/

/-- Insert-or-overwrite preserving first-insertion order. -/
def setA {β : Type} : List (String × β) → String → β → List (String × β)
  | [], k, v => [(k, v)]
  | (k', v') :: t, k, v =>
    if k' = k then (k, v) :: t else (k', v') :: setA t k v

/-- Lookup in an assoc list. -/
def lookupA {β : Type} : List (String × β) → String → Option β
  | [], _ => none
  | (k', v) :: t, k => if k' = k then some v else lookupA t k

/-! ### Graph loader, first pass (lines 125-188) -/

/-- `value.strip()` where the value came from `row.get(key, '')`:
raises `AttributeError` when the cell is `None` (short row). -/
def pyStripE (c : Option String) : Except PyErr String :=
  match c with
  | some s => .ok (pyStrip s)
  | none => .error .attributeError

/-- `row.get(key, '') if key else ''` — the raw (unstripped) cell used
for the rating columns; `''` when the column is absent. -/
def rawCell (flag : Bool) (c : Option String) : Option String :=
  if flag then c else some ""

/-- `float(row.get(key, 0) or 0)` guarded by `try/except
(ValueError, TypeError)` with prior default 0: `None` and `''` are
falsy and give 0, an unparsable string leaves the default 0.
`parseFloatQ?` below models Python `float()` on decimal literals. -/
def allDigits (l : List Char) : Bool := l.all Char.isDigit

/-- Numeric value of a digit string. -/
def natOfDigits (l : List Char) : Nat :=
  l.foldl (fun a c => 10 * a + (c.toNat - 48)) 0

/-- Python `float()` on optionally signed decimal literals (with an
optional fractional part); `none` models `ValueError`. -/
def parseFloatQ? (s : String) : Option ℚ :=
  let cs := trimC s.data
  let sgn : ℚ := match cs with
    | '-' :: _ => -1
    | _ => 1
  let cs2 : List Char := match cs with
    | '-' :: t => t
    | '+' :: t => t
    | _ => cs
  let ip := cs2.takeWhile (fun c => c ≠ '.')
  match cs2.dropWhile (fun c => c ≠ '.') with
  | [] =>
    if ip ≠ [] ∧ allDigits ip then some (sgn * natOfDigits ip) else none
  | _ :: fp =>
    if (ip ≠ [] ∨ fp ≠ []) ∧ allDigits ip ∧ allDigits fp then
      some (sgn * ((natOfDigits ip : ℚ) + (natOfDigits fp : ℚ) / (10 : ℚ) ^ fp.length))
    else none

/-- The numeric score finally stored for an optional score column
(lines 154-176); never raises. -/
def floatCell (flag : Bool) (c : Option String) : ℚ :=
  if flag then
    match c with
    | none => 0
    | some s => if s = "" then 0 else (parseFloatQ? s).getD 0
  else 0

/-- The node dict built for a row (lines 136-176); `pos` is the triple
of `random.uniform(-10, 10)` draws for this row. -/
def mkNodeRec {κ : Type} (cols : Cols) (pos : κ × κ × κ) (name : String)
    (r : Row) : NodeRec κ :=
  { name := name
    familiarity := rawCell cols.hasFam r.famCell
    familiarity_num := emoji_to_num (rawCell cols.hasFam r.famCell)
    interest := rawCell cols.hasInt r.intCell
    interest_num := emoji_to_num (rawCell cols.hasInt r.intCell)
    market := rawCell cols.hasMkt r.mktCell
    market_num := emoji_to_num (rawCell cols.hasMkt r.mktCell)
    req_score := floatCell cols.hasReqScore r.reqScoreCell
    master_score := floatCell cols.hasMasterScore r.masterScoreCell
    req_indirect := floatCell cols.hasReqIndirect r.reqIndirectCell
    dep_indirect := floatCell cols.hasDepIndirect r.depIndirectCell
    x := pos.1
    y := pos.2.1
    z := pos.2.2
    req_direct := 0
    dep_direct := 0 }

/-- First-pass loader state: the `nodes` dict, the two temporary
relation-text dicts, and how many node rows have been accepted (which
indexes the random-position source). -/
structure LoadSt (κ : Type) where
  nodes : List (String × NodeRec κ)
  tempDeps : List (String × String)
  tempReqs : List (String × String)
  counter : Nat
deriving DecidableEq, Repr

/-- Initial loader state. -/
def initSt {κ : Type} : LoadSt κ := ⟨[], [], [], 0⟩

/-- Processing of one CSV row, lines 125-188: strip the identity cell
(raising on a missing cell), skip the row when the name is empty,
build/overwrite the node record, then store the non-empty stripped
depends-on and required-by texts (each strip raising on a missing
cell). -/
def processRow {κ : Type} (cols : Cols) (rand : Nat → κ × κ × κ)
    (st : LoadSt κ) (r : Row) : Except PyErr (LoadSt κ) :=
  match (if cols.hasName then pyStripE r.nameCell else .ok "") with
  | .error err => .error err
  | .ok name =>
    if name = "" then .ok st
    else
      let node := mkNodeRec cols (rand st.counter) name r
      let st1 : LoadSt κ :=
        { st with nodes := setA st.nodes name node, counter := st.counter + 1 }
      match (if cols.hasDeps then pyStripE r.depsCell else .ok "") with
      | .error err => .error err
      | .ok d =>
        let st2 : LoadSt κ :=
          if d = "" then st1
          else { st1 with tempDeps := setA st1.tempDeps name d }
        match (if cols.hasReqs then pyStripE r.reqsCell else .ok "") with
        | .error err => .error err
        | .ok q =>
          .ok (if q = "" then st2
               else { st2 with tempReqs := setA st2.tempReqs name q })

/-! ### Graph loader, second pass: edges (lines 190-243) -/

/-- Body of the dependencies loop for one target `t` of node `N`
(lines 228-232): append the inverted edge `(t, N)` when `t` resolves. -/
def depStep (names : List String) (es : List EdgeRec) (N t : String) :
    List EdgeRec :=
  if t ∈ names then es ++ [⟨t, N⟩] else es

/-- The dependencies loop, lines 226-232: each resolved target `T` of
node `N` appends the edge `(T, N)` unconditionally. -/
def addDeps (names : List String) (es0 : List EdgeRec)
    (tmp : List (String × String)) : List EdgeRec :=
  tmp.foldl (fun es p =>
    (parse_relations p.2).foldl (fun es2 t => depStep names es2 p.1 t) es) es0

/-- Body of the requirements loop for one target `t` of node `N`
(lines 237-241): append the edge `(N, t)` when `t` resolves and no edge
with that exact source and target is already present. -/
def reqStep (names : List String) (es : List EdgeRec) (N t : String) :
    List EdgeRec :=
  if t ∈ names then
    if es.any (fun e => e.source == N && e.target == t) then es
    else es ++ [⟨N, t⟩]
  else es

/-- The requirements loop, lines 234-243. -/
def addReqs (names : List String) (es0 : List EdgeRec)
    (tmp : List (String × String)) : List EdgeRec :=
  tmp.foldl (fun es p =>
    (parse_relations p.2).foldl (fun es2 t => reqStep names es2 p.1 t) es) es0

/-- The row loop of the first pass: process rows in order, stopping at
the first raised exception. -/
def foldRows {κ : Type} (cols : Cols) (rand : Nat → κ × κ × κ) :
    LoadSt κ → List Row → Except PyErr (LoadSt κ)
  | st, [] => .ok st
  | st, r :: rs =>
    match processRow cols rand st r with
    | .error err => .error err
    | .ok st1 => foldRows cols rand st1 rs

/-- `load_network(csv_file)`, lines 58-250.  `input = none` models a
missing file; otherwise the rows are processed, edges are built, and
the direct degree counts are filled in (lines 246-248). -/
def load_network {κ : Type} (cols : Cols) (rand : Nat → κ × κ × κ)
    (input : Option (List Row)) :
    Except PyErr (List (NodeRec κ) × List EdgeRec) :=
  match input with
  | none => .error .fileNotFound
  | some rows =>
    match foldRows cols rand initSt rows with
    | .error err => .error err
    | .ok st =>
      let names := st.nodes.map Prod.fst
      let edges := addReqs names (addDeps names [] st.tempDeps) st.tempReqs
      let finalNodes := st.nodes.map (fun p =>
        { p.2 with
          req_direct := (edges.filter (fun e => e.source = p.2.name)).length
          dep_direct := (edges.filter (fun e => e.target = p.2.name)).length })
      .ok (finalNodes, edges)

/-! ### Layout engine (lines 14-19, 252-297)

Python floats are modelled by an arbitrary field `κ` with the square
root supplied as a parameter `sqrtF`; the geometry theorems instantiate
`κ := ℝ` and `sqrtF := Real.sqrt`. -/

/-- `ITERATIONS = 100`. -/
def ITERATIONS : Nat := 100

/-- `SPRING_LENGTH = 3.0`. -/
def SPRING_LENGTH {κ : Type} [Field κ] : κ := 3

/-- `REPULSION_STRENGTH = 50.0`. -/
def REPULSION_STRENGTH {κ : Type} [Field κ] : κ := 50

/-- The repulsion update of node `i` (lines 257-273): sum the repulsive
contributions of every other node at its *current* (possibly already
updated this iteration) position, then displace node `i`. -/
def repel {κ : Type} [Field κ] (sqrtF : κ → κ)
    (nodes : List (NodeRec κ)) (i : Nat) : List (NodeRec κ) :=
  match nodes[i]? with
  | none => nodes
  | some n1 =>
    let f := (List.range nodes.length).foldl (fun (acc : κ × κ × κ) j =>
      if j = i then acc
      else
        match nodes[j]? with
        | none => acc
        | some n2 =>
          let dx := n1.x - n2.x
          let dy := n1.y - n2.y
          let dz := n1.z - n2.z
          let dist := sqrtF (dx * dx + dy * dy + dz * dz) + 1 / 10
          let force := REPULSION_STRENGTH / (dist * dist)
          (acc.1 + dx / dist * force, acc.2.1 + dy / dist * force,
           acc.2.2 + dz / dist * force)) (0, 0, 0)
    nodes.set i
      { n1 with
        x := n1.x + f.1 * (1 / 100)
        y := n1.y + f.2.1 * (1 / 100)
        z := n1.z + f.2.2 * (1 / 100) }

/-- The in-place repulsion pass over all nodes in index order. -/
def repulsionPass {κ : Type} [Field κ] (sqrtF : κ → κ)
    (nodes : List (NodeRec κ)) : List (NodeRec κ) :=
  (List.range nodes.length).foldl (repel sqrtF) nodes

/-- Update the element at index `i` in place. -/
def updIdx {α : Type} (l : List α) (i : Nat) (g : α → α) : List α :=
  match l[i]? with
  | some v => l.set i (g v)
  | none => l

/-- The spring update for one edge (lines 276-297): find the first
node with the source name and the first with the target name, skip the
edge if either is missing, otherwise displace both endpoints by equal
and opposite amounts along the connecting direction. -/
def springEdge {κ : Type} [Field κ] (sqrtF : κ → κ)
    (nodes : List (NodeRec κ)) (e : EdgeRec) : List (NodeRec κ) :=
  match nodes.findIdx? (fun n => n.name == e.source),
        nodes.findIdx? (fun n => n.name == e.target) with
  | some si, some ti =>
    match nodes[si]?, nodes[ti]? with
    | some s, some t =>
      let dx := t.x - s.x
      let dy := t.y - s.y
      let dz := t.z - s.z
      let dist := sqrtF (dx * dx + dy * dy + dz * dz) + 1 / 10
      let force := (dist - SPRING_LENGTH) * (1 / 10)
      let fx := dx / dist * force
      let fy := dy / dist * force
      let fz := dz / dist * force
      let nodes1 := updIdx nodes si (fun n =>
        { n with x := n.x + fx, y := n.y + fy, z := n.z + fz })
      updIdx nodes1 ti (fun n =>
        { n with x := n.x - fx, y := n.y - fy, z := n.z - fz })
    | _, _ => nodes
  | _, _ => nodes

/-- One full layout iteration: the complete repulsion pass, then the
spring pass over all edges. -/
def layoutIter {κ : Type} [Field κ] (sqrtF : κ → κ)
    (nodes : List (NodeRec κ)) (edges : List EdgeRec) : List (NodeRec κ) :=
  edges.foldl (springEdge sqrtF) (repulsionPass sqrtF nodes)

/-- `apply_layout(nodes, edges, layout_type)`, lines 252-297: 100
iterations when the layout type is `'force'`, no change otherwise; the
edge list is only read. -/
def apply_layout {κ : Type} [Field κ] (sqrtF : κ → κ)
    (nodes : List (NodeRec κ)) (edges : List EdgeRec)
    (layout_type : String) : List (NodeRec κ) × List EdgeRec :=
  if layout_type = "force" then
    ((fun ns => layoutIter sqrtF ns edges)^[ITERATIONS] nodes, edges)
  else (nodes, edges)

/-! ### Serializer metrics (lines 299-311) -/

/-- The four per-node derived metrics added by `export_json`. -/
structure DerivedMetrics where
  network_centrality : Nat
  foundation_efficiency : ℚ
  total_connections : Nat
  connection_influence : ℚ
deriving DecidableEq, Repr

/-- `max(n['req_direct'] for n in nodes if n['req_direct'] > 0)`:
Python `max` raises `ValueError` on an empty sequence. -/
def maxPosReq {κ : Type} (nodes : List (NodeRec κ)) : Except PyErr Nat :=
  match nodes.filterMap (fun n =>
      if n.req_direct > 0 then some n.req_direct else none) with
  | [] => .error .valueError
  | x :: xs => .ok (xs.foldl max x)

/-- The metric loop of `export_json`, lines 302-311 (the subsequent
file write is not modelled).  For each node the influence denominator
is recomputed; it raises `ValueError` whenever the node list is
non-empty and no node has a positive `req_direct`. -/
def export_json_metrics {κ : Type} (nodes : List (NodeRec κ)) :
    Except PyErr (List (NodeRec κ × DerivedMetrics)) :=
  nodes.mapM (fun n => do
    let infl ←
      if nodes.isEmpty then pure 0
      else do
        let m ← maxPosReq nodes
        pure (((n.req_direct : ℚ) * (7 / 10) + (n.dep_direct : ℚ) * (3 / 10)) /
          ((max 1 m : Nat) : ℚ))
    pure (n,
      { network_centrality := n.req_direct * n.dep_direct
        foundation_efficiency := (n.req_direct : ℚ) / (1 + (n.dep_direct : ℚ))
        total_connections := n.req_direct + n.dep_direct
        connection_influence := infl }))

/-! ### Scalar distance recurrence for a two-node system

For exactly two nodes, every displacement in one layout iteration is a
scalar multiple of the vector joining them, so the inter-node distance
follows a scalar recurrence.  `fRep` is the distance after one node's
repulsion update; `gSpr` is the distance after the spring update of the
single edge. -/

/-- Distance growth from one repulsion update at distance `d`:
the displacement magnitude is `0.01 * (50 / dist^2) * (d / dist)` with
`dist = d + 0.1`. -/
def fRep {κ : Type} [Field κ] (d : κ) : κ :=
  d + d * (1 / 2) / (d + 1 / 10) ^ 3

/-- Distance after the spring update at distance `d`: both endpoints
move by `(dist - 3) * 0.1 * (d / dist)` toward each other, where
`dist = d + 0.1`. -/
def gSpr {κ : Type} [Field κ] (d : κ) : κ :=
  d * (4 * (d + 1 / 10) + 3) / (5 * (d + 1 / 10))

/-- The two-node distance after one full layout iteration started at
distance `d`: both repulsion updates, then the spring update. -/
def twoNodeDist {κ : Type} [Field κ] (d : κ) : κ := gSpr (fRep (fRep d))

/-! ### Derived notions used in the statements -/

/-- Euclidean distance between two nodes, written with the same
expression shape the layout code uses. -/
def nodeDist {κ : Type} [Field κ] (sqrtF : κ → κ) (p q : NodeRec κ) : κ :=
  sqrtF ((q.x - p.x) * (q.x - p.x) + (q.y - p.y) * (q.y - p.y) +
    (q.z - p.z) * (q.z - p.z))

/-- The distance between a two-node pair joined by one edge after one
full layout iteration. -/
def pairDistAfterIter {κ : Type} [Field κ] (sqrtF : κ → κ)
    (a b : NodeRec κ) : κ :=
  match layoutIter sqrtF [a, b] [⟨a.name, b.name⟩] with
  | [p, q] => nodeDist sqrtF p q
  | _ => 0

/-- A node with a name, a position, and all other attributes at their
defaults. -/
def mkPosNode {κ : Type} (nm : String) (px py pz : κ) : NodeRec κ :=
  { name := nm
    familiarity := none, familiarity_num := 0
    interest := none, interest_num := 0
    market := none, market_num := 0
    req_score := 0, master_score := 0, req_indirect := 0, dep_indirect := 0
    x := px, y := py, z := pz
    req_direct := 0, dep_direct := 0 }

/-- All node attributes except the three position coordinates. -/
def attrsOf {κ : Type} (n : NodeRec κ) :
    String × Option String × Nat × Option String × Nat × Option String ×
    Nat × ℚ × ℚ × ℚ × ℚ × Nat × Nat :=
  (n.name, n.familiarity, n.familiarity_num, n.interest, n.interest_num,
   n.market, n.market_num, n.req_score, n.master_score, n.req_indirect,
   n.dep_indirect, n.req_direct, n.dep_direct)

/-- Is the ordered pair `e` resolved by some required-by entry: an
entry of `tmp` whose key is `e.source` and whose parsed relation text
contains `e.target`, with `e.target` a known node name? -/
def resolvedInReqsB (names : List String) (tmp : List (String × String))
    (e : EdgeRec) : Bool :=
  tmp.any (fun p => p.1 == e.source &&
    (parse_relations p.2).any (fun t => t == e.target) &&
    names.contains e.target)

/-- The stripped identity cell of a row, as a total function (used to
state properties of runs that completed without an exception). -/
def rowNameT (cols : Cols) (r : Row) : String :=
  if cols.hasName then pyStrip (r.nameCell.getD "") else ""

/-- The stripped depends-on cell of a row, total version. -/
def rowDepsT (cols : Cols) (r : Row) : String :=
  if cols.hasDeps then pyStrip (r.depsCell.getD "") else ""

/-- The stripped required-by cell of a row, total version. -/
def rowReqsT (cols : Cols) (r : Row) : String :=
  if cols.hasReqs then pyStrip (r.reqsCell.getD "") else ""

/-- The non-empty depends-on texts contributed for name `nm`, in row
order. -/
def depsContrib (cols : Cols) (rows : List Row) (nm : String) : List String :=
  rows.filterMap (fun r =>
    if rowNameT cols r = nm ∧ rowDepsT cols r ≠ "" then some (rowDepsT cols r)
    else none)

/-- The non-empty required-by texts contributed for name `nm`, in row
order. -/
def reqsContrib (cols : Cols) (rows : List Row) (nm : String) : List String :=
  rows.filterMap (fun r =>
    if rowNameT cols r = nm ∧ rowReqsT cols r ≠ "" then some (rowReqsT cols r)
    else none)

/-- The rows whose identity cell strips to `nm`, in row order. -/
def rowsNamed (cols : Cols) (rows : List Row) (nm : String) : List Row :=
  rows.filter (fun r => rowNameT cols r == nm)

/-- The non-position attributes a row would give its node. -/
def attrsFromRow (cols : Cols) (nm : String) (r : Row) :=
  attrsOf (mkNodeRec (κ := ℚ) cols (0, 0, 0) nm r)

/-- A row that supplies a value for each of the identity, depends-on
and required-by columns that the header declares. -/
def goodRow (cols : Cols) (r : Row) : Prop :=
  (cols.hasName = true → r.nameCell.isSome = true) ∧
  (cols.hasDeps = true → r.depsCell.isSome = true) ∧
  (cols.hasReqs = true → r.reqsCell.isSome = true)

instance goodRowDecidable (cols : Cols) (r : Row) :
    Decidable (goodRow cols r) := by
  unfold goodRow
  infer_instance

/-- The deterministic state transformer realised by `processRow` when
it does not raise (the stripped total cell readings coincide with the
raising ones exactly on rows where no cell is missing). -/
def nextSt {κ : Type} (cols : Cols) (rand : Nat → κ × κ × κ)
    (st : LoadSt κ) (r : Row) : LoadSt κ :=
  let name := rowNameT cols r
  if name = "" then st
  else
    let node := mkNodeRec cols (rand st.counter) name r
    let st1 : LoadSt κ :=
      { st with nodes := setA st.nodes name node, counter := st.counter + 1 }
    let d := rowDepsT cols r
    let st2 : LoadSt κ :=
      if d = "" then st1 else { st1 with tempDeps := setA st1.tempDeps name d }
    let q := rowReqsT cols r
    if q = "" then st2 else { st2 with tempReqs := setA st2.tempReqs name q }

/-- Loader-state sanity: every stored node value carries its key as its
name, and every key of the two temporary relation maps is a node key. -/
def goodSt {κ : Type} (st : LoadSt κ) : Prop :=
  (∀ p ∈ st.nodes, (p.2 : NodeRec κ).name = p.1) ∧
  (∀ k ∈ st.tempDeps.map Prod.fst, k ∈ st.nodes.map Prod.fst) ∧
  (∀ k ∈ st.tempReqs.map Prod.fst, k ∈ st.nodes.map Prod.fst)

/-- The constant zero random-position source used for witnesses. -/
def rand0 {κ : Type} [Field κ] : Nat → κ × κ × κ := fun _ => (0, 0, 0)

/-- Decidable equality on `Except` results. -/
instance instDecEqExcept {ε α : Type} [DecidableEq ε] [DecidableEq α] :
    DecidableEq (Except ε α)
  | .ok a, .ok b =>
    if h : a = b then .isTrue (by rw [h]) else .isFalse (by simp [h])
  | .ok _, .error _ => .isFalse (by simp)
  | .error _, .ok _ => .isFalse (by simp)
  | .error e, .error f =>
    if h : e = f then .isTrue (by rw [h]) else .isFalse (by simp [h])

/-! ### Concrete fixtures used by counterexamples and witnesses -/

/-- A row with just an identity cell and a depends-on cell. -/
def mkRowND (n d : Option String) : Row :=
  ⟨n, d, none, none, none, none, none, none, none, none⟩

/-- A row with identity, depends-on and required-by cells. -/
def mkRowNDR (n d q : Option String) : Row :=
  ⟨n, d, q, none, none, none, none, none, none, none⟩

/-- Header with identity and depends-on columns only. -/
def fixCols : Cols :=
  ⟨true, true, false, false, false, false, false, false, false, false⟩

/-- Header with identity, depends-on and required-by columns. -/
def fixColsR : Cols :=
  ⟨true, true, true, false, false, false, false, false, false, false⟩

/-- Input for the duplicate-edge counterexample: node `A` whose
depends-on cell lists `B` twice, and node `B`. -/
def rowsDup : List Row :=
  [mkRowND (some "A") (some "B, B"), mkRowND (some "B") (some "")]

/-- A short row: the identity column exists in the header but the row
supplies no cell for it (`csv.DictReader` stores `None`). -/
def rowShort : Row := mkRowND none none

/-- Witness input: a single self-dependent node. -/
def rowsSelf : List Row := [mkRowND (some "A") (some "A")]

/-- Witness input for last-non-empty relation text: name `A` appears
twice, the second time with an empty depends-on cell. -/
def rowsTwice : List Row :=
  [mkRowND (some "A") (some "B"), mkRowND (some "A") (some "")]

/-- The second row of `rowsTwice`. -/
def rowA2 : Row := mkRowND (some "A") (some "")

/-- The loader state after the first pass over `rowsTwice`. -/
def stTwice : LoadSt ℚ :=
  ⟨[("A", mkNodeRec fixCols (0, 0, 0) "A" rowA2)], [("A", "B")], [], 2⟩

/-- The node record produced by loading `rowsSelf` under `fixCols`. -/
def nodeSelfA : NodeRec ℚ :=
  { name := "A"
    familiarity := some "", familiarity_num := 0
    interest := some "", interest_num := 0
    market := some "", market_num := 0
    req_score := 0, master_score := 0, req_indirect := 0, dep_indirect := 0
    x := 0, y := 0, z := 0
    req_direct := 1, dep_direct := 1 }

end Career

namespace Career

/-! ## Theorems -/

/-! ### Edge-pass lemmas -/

theorem edge_beq_iff (e : EdgeRec) (N t : String) :
    (e.source == N && e.target == t) = true ↔ e = EdgeRec.mk N t := by
  cases e
  simp [EdgeRec.mk.injEq]

theorem count_singleton_edge (x e : EdgeRec) :
    List.count e [x] = if e = x then 1 else 0 := by
  rw [List.count_singleton]
  by_cases h : e = x
  · simp [h]
  · simp [beq_iff_eq, h, Ne.symm h]

theorem count_depStep (names : List String) (es : List EdgeRec)
    (N t : String) (e : EdgeRec) :
    (depStep names es N t).count e =
      es.count e + (if t ∈ names ∧ e = EdgeRec.mk t N then 1 else 0) := by
  unfold depStep
  by_cases h : t ∈ names
  · rw [if_pos h, List.count_append, count_singleton_edge]
    by_cases he : e = EdgeRec.mk t N
    · rw [if_pos he, if_pos ⟨h, he⟩]
    · rw [if_neg he, if_neg (by tauto)]
  · rw [if_neg h, if_neg (by tauto)]
    omega

theorem count_reqStep (names : List String) (es : List EdgeRec)
    (N t : String) (e : EdgeRec) :
    (reqStep names es N t).count e =
      if t ∈ names ∧ e = EdgeRec.mk N t then max (es.count e) 1
      else es.count e := by
  unfold reqStep
  by_cases hn : t ∈ names
  · rw [if_pos hn]
    by_cases hm : EdgeRec.mk N t ∈ es
    · have hany : (es.any fun x => x.source == N && x.target == t) = true := by
        rw [List.any_eq_true]
        exact ⟨_, hm, (edge_beq_iff _ _ _).2 rfl⟩
      rw [hany]
      simp only [if_true]
      by_cases he : e = EdgeRec.mk N t
      · rw [if_pos ⟨hn, he⟩, he]
        have hc : 0 < List.count (EdgeRec.mk N t) es := List.count_pos_iff.2 hm
        omega
      · rw [if_neg (by tauto)]
    · have hany : (es.any fun x => x.source == N && x.target == t) = false := by
        rw [Bool.eq_false_iff]
        intro hc
        rw [List.any_eq_true] at hc
        obtain ⟨x, hx, hbx⟩ := hc
        exact hm ((edge_beq_iff _ _ _).1 hbx ▸ hx)
      rw [hany]
      simp only [Bool.false_eq_true, if_false]
      rw [List.count_append, count_singleton_edge]
      by_cases he : e = EdgeRec.mk N t
      · rw [if_pos he, if_pos ⟨hn, he⟩, he]
        have hc : List.count (EdgeRec.mk N t) es = 0 :=
          List.count_eq_zero.2 hm
        omega
      · rw [if_neg he, if_neg (by tauto)]
        omega
  · rw [if_neg hn, if_neg (by tauto)]

theorem count_foldl_reqStep (names : List String) (N : String)
    (ts : List String) (es : List EdgeRec) (e : EdgeRec) :
    (ts.foldl (fun es2 t => reqStep names es2 N t) es).count e =
      if e.source = N ∧ e.target ∈ ts ∧ e.target ∈ names then
        max (es.count e) 1
      else es.count e := by
  induction ts generalizing es with
  | nil => simp
  | cons t tl ih =>
    rw [List.foldl_cons, ih, count_reqStep]
    obtain ⟨s, tg⟩ := e
    simp only [EdgeRec.mk.injEq, List.mem_cons]
    by_cases hs : s = N <;> by_cases htg : tg = t <;>
      by_cases htl : tg ∈ tl <;> by_cases hnm : tg ∈ names <;>
      by_cases htn : t ∈ names <;>
      simp_all

theorem count_addReqs (names : List String) (tmp : List (String × String))
    (es : List EdgeRec) (e : EdgeRec) :
    (addReqs names es tmp).count e =
      if resolvedInReqsB names tmp e = true then max (es.count e) 1
      else es.count e := by
  induction tmp generalizing es with
  | nil => simp [addReqs, resolvedInReqsB]
  | cons p tl ih =>
    simp only [addReqs] at ih ⊢
    rw [List.foldl_cons, ih, count_foldl_reqStep]
    have hres : resolvedInReqsB names (p :: tl) e =
        ((p.1 == e.source &&
          (parse_relations p.2).any (fun t => t == e.target) &&
          names.contains e.target) || resolvedInReqsB names tl e) := by
      simp [resolvedInReqsB]
    rw [hres]
    have hc3 : (names.contains e.target = true) ↔ e.target ∈ names :=
      List.elem_iff
    have hcond : (p.1 == e.source &&
        (parse_relations p.2).any (fun t => t == e.target) &&
        names.contains e.target) = true ↔
        (e.source = p.1 ∧ e.target ∈ parse_relations p.2 ∧ e.target ∈ names) := by
      simp only [Bool.and_eq_true, List.any_eq_true, beq_iff_eq, hc3]
      constructor
      · rintro ⟨⟨h1, t', ht', rfl⟩, h3⟩
        exact ⟨h1.symm, ht', h3⟩
      · rintro ⟨h1, h2, h3⟩
        exact ⟨⟨h1.symm, e.target, h2, rfl⟩, h3⟩
    by_cases h1 : e.source = p.1 ∧ e.target ∈ parse_relations p.2 ∧ e.target ∈ names
    · have hbt : (p.1 == e.source &&
          (parse_relations p.2).any (fun t => t == e.target) &&
          names.contains e.target) = true := hcond.2 h1
      rw [if_pos h1, hbt, Bool.true_or, if_pos rfl]
      by_cases h4 : resolvedInReqsB names tl e = true
      · rw [if_pos h4]
        omega
      · rw [if_neg h4]
    · have hbf : (p.1 == e.source &&
          (parse_relations p.2).any (fun t => t == e.target) &&
          names.contains e.target) = false := by
        rw [Bool.eq_false_iff]
        exact fun hc => h1 (hcond.1 hc)
      rw [if_neg h1, hbf, Bool.false_or]

theorem mem_depStep_of_mem {names : List String} {es : List EdgeRec}
    {N t : String} {e : EdgeRec} (h : e ∈ es) : e ∈ depStep names es N t := by
  unfold depStep
  split <;> simp [h]

theorem mem_foldl_depStep_of_mem {names : List String} {N : String}
    {es : List EdgeRec} {e : EdgeRec} (ts : List String) (h : e ∈ es) :
    e ∈ ts.foldl (fun es2 t => depStep names es2 N t) es := by
  induction ts generalizing es with
  | nil => exact h
  | cons t tl ih => exact ih (mem_depStep_of_mem h)

theorem mem_foldl_depStep_target {names : List String} {N T : String}
    {es : List EdgeRec} {ts : List String} (h1 : T ∈ ts) (h2 : T ∈ names) :
    EdgeRec.mk T N ∈ ts.foldl (fun es2 t => depStep names es2 N t) es := by
  induction ts generalizing es with
  | nil => cases h1
  | cons t tl ih =>
    rcases List.mem_cons.1 h1 with h | h
    · subst h
      refine mem_foldl_depStep_of_mem tl ?_
      unfold depStep
      simp [h2]
    · exact ih h

theorem mem_addDeps_of_mem {names : List String} {es : List EdgeRec}
    {e : EdgeRec} (tmp : List (String × String)) (h : e ∈ es) :
    e ∈ addDeps names es tmp := by
  induction tmp generalizing es with
  | nil => exact h
  | cons p tl ih => exact ih (mem_foldl_depStep_of_mem _ h)

theorem mem_reqStep_of_mem {names : List String} {es : List EdgeRec}
    {N t : String} {e : EdgeRec} (h : e ∈ es) : e ∈ reqStep names es N t := by
  unfold reqStep
  split
  · split
    · exact h
    · simp [h]
  · exact h

theorem mem_foldl_reqStep_of_mem {names : List String} {N : String}
    {es : List EdgeRec} {e : EdgeRec} (ts : List String) (h : e ∈ es) :
    e ∈ ts.foldl (fun es2 t => reqStep names es2 N t) es := by
  induction ts generalizing es with
  | nil => exact h
  | cons t tl ih => exact ih (mem_reqStep_of_mem h)

theorem mem_addReqs_of_mem {names : List String} {es : List EdgeRec}
    {e : EdgeRec} (tmp : List (String × String)) (h : e ∈ es) :
    e ∈ addReqs names es tmp := by
  induction tmp generalizing es with
  | nil => exact h
  | cons p tl ih => exact ih (mem_foldl_reqStep_of_mem _ h)

theorem mem_addDeps_entry {names : List String} {es : List EdgeRec}
    {tmp : List (String × String)} {N raw T : String}
    (h0 : (N, raw) ∈ tmp) (h1 : T ∈ parse_relations raw) (h2 : T ∈ names) :
    EdgeRec.mk T N ∈ addDeps names es tmp := by
  induction tmp generalizing es with
  | nil => cases h0
  | cons p tl ih =>
    rcases List.mem_cons.1 h0 with h | h
    · subst h
      exact mem_addDeps_of_mem tl (mem_foldl_depStep_target h1 h2)
    · exact ih h

theorem mem_depStep_elim {names : List String} {es : List EdgeRec}
    {N t : String} {e : EdgeRec} (h : e ∈ depStep names es N t) :
    e ∈ es ∨ (e.source ∈ names ∧ e.target = N) := by
  unfold depStep at h
  by_cases hn : t ∈ names
  · rw [if_pos hn, List.mem_append] at h
    rcases h with h | h
    · exact Or.inl h
    · simp only [List.mem_singleton] at h
      subst h
      exact Or.inr ⟨hn, rfl⟩
  · rw [if_neg hn] at h
    exact Or.inl h

theorem mem_foldl_depStep_elim {names : List String} {N : String}
    {es : List EdgeRec} {e : EdgeRec} {ts : List String}
    (h : e ∈ ts.foldl (fun es2 t => depStep names es2 N t) es) :
    e ∈ es ∨ (e.source ∈ names ∧ e.target = N) := by
  induction ts generalizing es with
  | nil => exact Or.inl h
  | cons t tl ih =>
    rcases ih h with h' | h'
    · exact mem_depStep_elim h'
    · exact Or.inr h'

theorem mem_addDeps_elim {names : List String} {es : List EdgeRec}
    {e : EdgeRec} {tmp : List (String × String)}
    (h : e ∈ addDeps names es tmp) :
    e ∈ es ∨ (e.source ∈ names ∧ e.target ∈ tmp.map Prod.fst) := by
  induction tmp generalizing es with
  | nil => exact Or.inl h
  | cons p tl ih =>
    rcases ih h with h' | h'
    · rcases mem_foldl_depStep_elim h' with h'' | h''
      · exact Or.inl h''
      · exact Or.inr ⟨h''.1, by simp [h''.2]⟩
    · exact Or.inr ⟨h'.1, by simp; right; simpa using h'.2⟩

theorem mem_reqStep_elim {names : List String} {es : List EdgeRec}
    {N t : String} {e : EdgeRec} (h : e ∈ reqStep names es N t) :
    e ∈ es ∨ (e.source = N ∧ e.target ∈ names) := by
  unfold reqStep at h
  by_cases hn : t ∈ names
  · rw [if_pos hn] at h
    split at h
    · exact Or.inl h
    · rw [List.mem_append] at h
      rcases h with h | h
      · exact Or.inl h
      · simp only [List.mem_singleton] at h
        subst h
        exact Or.inr ⟨rfl, hn⟩
  · rw [if_neg hn] at h
    exact Or.inl h

theorem mem_foldl_reqStep_elim {names : List String} {N : String}
    {es : List EdgeRec} {e : EdgeRec} {ts : List String}
    (h : e ∈ ts.foldl (fun es2 t => reqStep names es2 N t) es) :
    e ∈ es ∨ (e.source = N ∧ e.target ∈ names) := by
  induction ts generalizing es with
  | nil => exact Or.inl h
  | cons t tl ih =>
    rcases ih h with h' | h'
    · exact mem_reqStep_elim h'
    · exact Or.inr h'

theorem mem_keys_setA {β : Type} (l : List (String × β)) (k k' : String)
    (v : β) :
    k' ∈ (setA l k v).map Prod.fst ↔ k' = k ∨ k' ∈ l.map Prod.fst := by
  induction l with
  | nil => simp [setA]
  | cons p t ih =>
    obtain ⟨a, b⟩ := p
    by_cases h : a = k
    · have hset : setA ((a, b) :: t) k v = (k, v) :: t := by
        show (if a = k then (k, v) :: t else (a, b) :: setA t k v) =
          (k, v) :: t
        rw [if_pos h]
      rw [hset, h]
      simp only [List.map_cons, List.mem_cons]
      tauto
    · have hset : setA ((a, b) :: t) k v = (a, b) :: setA t k v := by
        show (if a = k then (k, v) :: t else (a, b) :: setA t k v) =
          (a, b) :: setA t k v
        rw [if_neg h]
      rw [hset]
      simp only [List.map_cons, List.mem_cons, ih]
      tauto

theorem mem_setA_elim {β : Type} {l : List (String × β)} {k : String}
    {v : β} {q : String × β} (h : q ∈ setA l k v) : q = (k, v) ∨ q ∈ l := by
  induction l with
  | nil => simpa [setA] using h
  | cons p t ih =>
    obtain ⟨a, b⟩ := p
    by_cases ha : a = k
    · have hset : setA ((a, b) :: t) k v = (k, v) :: t := by
        show (if a = k then (k, v) :: t else (a, b) :: setA t k v) =
          (k, v) :: t
        rw [if_pos ha]
      rw [hset] at h
      rcases List.mem_cons.1 h with h' | h'
      · exact Or.inl h'
      · exact Or.inr (List.mem_cons.2 (Or.inr h'))
    · have hset : setA ((a, b) :: t) k v = (a, b) :: setA t k v := by
        show (if a = k then (k, v) :: t else (a, b) :: setA t k v) =
          (a, b) :: setA t k v
        rw [if_neg ha]
      rw [hset] at h
      rcases List.mem_cons.1 h with h' | h'
      · exact Or.inr (List.mem_cons.2 (Or.inl h'))
      · rcases ih h' with h'' | h''
        · exact Or.inl h''
        · exact Or.inr (List.mem_cons.2 (Or.inr h''))

theorem processRow_ok_eq {κ : Type} {cols : Cols} {rand : Nat → κ × κ × κ}
    {st : LoadSt κ} {r : Row} {st' : LoadSt κ}
    (h : processRow cols rand st r = .ok st') : st' = nextSt cols rand st r := by
  unfold processRow at h
  unfold nextSt rowNameT rowDepsT rowReqsT
  cases hN : cols.hasName <;> cases hD : cols.hasDeps <;>
    cases hQ : cols.hasReqs <;> cases hnc : r.nameCell <;>
    cases hdc : r.depsCell <;> cases hqc : r.reqsCell <;>
    simp_all [pyStripE] <;> split_ifs at h ⊢ <;> simp_all

theorem mem_addReqs_elim {names : List String} {es : List EdgeRec}
    {e : EdgeRec} {tmp : List (String × String)}
    (h : e ∈ addReqs names es tmp) :
    e ∈ es ∨ (e.source ∈ tmp.map Prod.fst ∧ e.target ∈ names) := by
  induction tmp generalizing es with
  | nil => exact Or.inl h
  | cons p tl ih =>
    rcases ih h with h' | h'
    · rcases mem_foldl_reqStep_elim h' with h'' | h''
      · exact Or.inl h''
      · exact Or.inr ⟨by simp [h''.1], h''.2⟩
    · exact Or.inr ⟨by simp; right; simpa using h'.1, h'.2⟩

/-- **C7.** The relation parser on `"A, B (foo%20bar.csv), C(x, y)"`
returns exactly `["A", "B", "C(x, y)"]`: the comma inside parentheses
does not separate, and the URL-encoded-filename annotation is stripped
only from the second candidate. -/
theorem C7_parse_relations :
    parse_relations "A, B (foo%20bar.csv), C(x, y)" = ["A", "B", "C(x, y)"] := by
  decide

/-- **C8.** The rating-to-number mapping returns 5 for the exact string
`"🏆 Profissional"`, 0 for the unknown string `"???"`, and 4 for
`"something 🔥 something"` by substring containment. -/
theorem C8_rating_map :
    emoji_to_num (some "🏆 Profissional") = 5 ∧
    emoji_to_num (some "???") = 0 ∧
    emoji_to_num (some "something 🔥 something") = 4 := by
  decide

/-- **C2 (code bug).** On a non-empty node set in which every node has
`req_direct = 0` the serializer's metric loop raises `ValueError`
(Python `max()` over an empty generator) instead of completing with
influence 0; the empty node set, by contrast, is fine. -/
theorem C2_export_metrics_crash :
    export_json_metrics [mkPosNode (κ := ℚ) "A" 0 0 0] = .error .valueError ∧
    export_json_metrics ([] : List (NodeRec ℚ)) = .ok [] := by
  decide

/-- **C1 (counterexample).** After a completed load of an input whose
depends-on cell lists the same resolved target twice, the edge list
contains the ordered pair `("B", "A")` twice: exact duplicates arising
from a single depends-on cell are not suppressed. -/
theorem C1_counterexample :
    (load_network fixCols (rand0 (κ := ℚ)) (some rowsDup)).map Prod.snd =
      .ok [⟨"B", "A"⟩, ⟨"B", "A"⟩] ∧
    ¬ ([⟨"B", "A"⟩, ⟨"B", "A"⟩] : List EdgeRec).Nodup := by
  decide

/-- **C6 (counterexample).** An existing input consisting of one row
that is shorter than the header (its identity cell is missing, hence
`None`) makes the loader raise `AttributeError` (`None.strip()`), so an
exception other than the not-found error does escape the loader. -/
theorem C6_counterexample :
    load_network fixCols (rand0 (κ := ℚ)) (some [rowShort]) =
      .error .attributeError := by
  decide


/-! ### Loader-state invariants -/

theorem goodSt_initSt {κ : Type} : goodSt (initSt (κ := κ)) := by
  refine ⟨?_, ?_, ?_⟩ <;> intro p hp <;> simp [initSt] at hp

theorem goodSt_nextSt {κ : Type} (cols : Cols) (rand : Nat → κ × κ × κ)
    (st : LoadSt κ) (r : Row) (hg : goodSt st) :
    goodSt (nextSt cols rand st r) := by
  obtain ⟨h1, h2, h3⟩ := hg
  simp only [nextSt]
  by_cases hn : rowNameT cols r = ""
  · rw [if_pos hn]
    exact ⟨h1, h2, h3⟩
  · rw [if_neg hn]
    have hA : ∀ p ∈ setA st.nodes (rowNameT cols r)
        (mkNodeRec cols (rand st.counter) (rowNameT cols r) r),
        (p.2 : NodeRec κ).name = p.1 := by
      intro p hp
      rcases mem_setA_elim hp with h' | h'
      · rw [h']
        rfl
      · exact h1 p h'
    have hB : ∀ k, k ∈ st.nodes.map Prod.fst →
        k ∈ (setA st.nodes (rowNameT cols r)
          (mkNodeRec cols (rand st.counter) (rowNameT cols r) r)).map Prod.fst :=
      fun k hk => (mem_keys_setA _ _ _ _).2 (Or.inr hk)
    have hC : rowNameT cols r ∈ (setA st.nodes (rowNameT cols r)
        (mkNodeRec cols (rand st.counter) (rowNameT cols r) r)).map Prod.fst :=
      (mem_keys_setA _ _ _ _).2 (Or.inl rfl)
    by_cases hd : rowDepsT cols r = ""
    · rw [if_pos hd]
      by_cases hq : rowReqsT cols r = ""
      · rw [if_pos hq]
        exact ⟨hA, fun k hk => hB k (h2 k hk), fun k hk => hB k (h3 k hk)⟩
      · rw [if_neg hq]
        refine ⟨hA, fun k hk => hB k (h2 k hk), ?_⟩
        intro k hk
        rcases (mem_keys_setA _ _ _ _).1 hk with h' | h'
        · rw [h']
          exact hC
        · exact hB k (h3 k h')
    · rw [if_neg hd]
      by_cases hq : rowReqsT cols r = ""
      · rw [if_pos hq]
        refine ⟨hA, ?_, fun k hk => hB k (h3 k hk)⟩
        intro k hk
        rcases (mem_keys_setA _ _ _ _).1 hk with h' | h'
        · rw [h']
          exact hC
        · exact hB k (h2 k h')
      · rw [if_neg hq]
        refine ⟨hA, ?_, ?_⟩
        · intro k hk
          rcases (mem_keys_setA _ _ _ _).1 hk with h' | h'
          · rw [h']
            exact hC
          · exact hB k (h2 k h')
        · intro k hk
          rcases (mem_keys_setA _ _ _ _).1 hk with h' | h'
          · rw [h']
            exact hC
          · exact hB k (h3 k h')

theorem goodSt_foldRows {κ : Type} {cols : Cols} {rand : Nat → κ × κ × κ} :
    ∀ {rows : List Row} {st st' : LoadSt κ},
      foldRows cols rand st rows = .ok st' → goodSt st → goodSt st' := by
  intro rows
  induction rows with
  | nil =>
    intro st st' h hg
    cases h
    exact hg
  | cons r rs ih =>
    intro st st' h hg
    unfold foldRows at h
    cases hp : processRow cols rand st r with
    | error e =>
      rw [hp] at h
      cases h
    | ok st1 =>
      rw [hp] at h
      have hg1 : goodSt st1 := by
        rw [processRow_ok_eq hp]
        exact goodSt_nextSt _ _ _ _ hg
      exact ih h hg1

theorem load_ok_inv {κ : Type} {cols : Cols} {rand : Nat → κ × κ × κ}
    {rows : List Row} {ns : List (NodeRec κ)} {es : List EdgeRec}
    (h : load_network cols rand (some rows) = .ok (ns, es)) :
    ∃ st : LoadSt κ, foldRows cols rand initSt rows = .ok st ∧
      es = addReqs (st.nodes.map Prod.fst)
        (addDeps (st.nodes.map Prod.fst) [] st.tempDeps) st.tempReqs ∧
      ns = st.nodes.map (fun p =>
        { p.2 with
          req_direct := ((addReqs (st.nodes.map Prod.fst)
            (addDeps (st.nodes.map Prod.fst) [] st.tempDeps)
            st.tempReqs).filter (fun e => e.source = p.2.name)).length
          dep_direct := ((addReqs (st.nodes.map Prod.fst)
            (addDeps (st.nodes.map Prod.fst) [] st.tempDeps)
            st.tempReqs).filter (fun e => e.target = p.2.name)).length }) := by
  cases hf : foldRows cols rand initSt rows with
  | error err =>
    simp only [load_network, hf] at h
    cases h
  | ok st =>
    simp only [load_network, hf, Except.ok.injEq, Prod.mk.injEq] at h
    exact ⟨st, rfl, h.2.symm, h.1.symm⟩

/-- **C5.** For every input on which load completes, every edge in the
returned edge list has both its source name and its target name present
in the returned node set; edges with an unresolved endpoint are never
stored. -/
theorem C5_graph_closure {κ : Type} (cols : Cols) (rand : Nat → κ × κ × κ)
    (input : Option (List Row)) (ns : List (NodeRec κ)) (es : List EdgeRec)
    (h : load_network cols rand input = .ok (ns, es)) :
    ∀ e ∈ es, (∃ n ∈ ns, n.name = e.source) ∧ (∃ n ∈ ns, n.name = e.target) := by
  cases input with
  | none => cases h
  | some rows =>
    obtain ⟨st, hf, hes, hns⟩ := load_ok_inv h
    obtain ⟨hkv, hkd, hkr⟩ := goodSt_foldRows hf goodSt_initSt
    intro e he
    rw [hes] at he
    have hst : e.source ∈ st.nodes.map Prod.fst ∧
        e.target ∈ st.nodes.map Prod.fst := by
      rcases mem_addReqs_elim he with h' | h'
      · rcases mem_addDeps_elim h' with h'' | h''
        · cases h''
        · exact ⟨h''.1, hkd _ h''.2⟩
      · exact ⟨hkr _ h'.1, h'.2⟩
    have hconv : ∀ k, k ∈ st.nodes.map Prod.fst → ∃ n ∈ ns, n.name = k := by
      intro k hk
      rw [List.mem_map] at hk
      obtain ⟨p, hp, hpk⟩ := hk
      refine ⟨_, by rw [hns]; exact List.mem_map.2 ⟨p, hp, rfl⟩, ?_⟩
      exact (hkv p hp).trans hpk
    exact ⟨hconv _ hst.1, hconv _ hst.2⟩

/-- **C5 witness**: a concrete completed load with a non-empty edge
list, closed under node names. -/
theorem C5_graph_closure_witness :
    load_network fixCols (rand0 (κ := ℚ)) (some rowsSelf) =
      .ok ([nodeSelfA], [EdgeRec.mk "A" "A"]) ∧
    ∀ e ∈ [EdgeRec.mk "A" "A"],
      (∃ n ∈ [nodeSelfA], n.name = e.source) ∧
      (∃ n ∈ [nodeSelfA], n.name = e.target) := by
  have h : load_network fixCols (rand0 (κ := ℚ)) (some rowsSelf) =
      .ok ([nodeSelfA], [EdgeRec.mk "A" "A"]) := by decide
  exact ⟨h, C5_graph_closure _ _ _ _ _ h⟩


/-- **C1 (amended).** In the edge list built by the second load pass,
the multiplicity of an ordered pair equals its multiplicity among the
edges generated by the depends-on loop, except that a pair also
resolved by some required-by cell occurs `max` of that multiplicity
and 1 times.  Hence the required-by loop never introduces a duplicate,
but exact duplicates do survive when one depends-on cell resolves the
same target twice. -/
theorem C1_amended_edge_multiplicity (names : List String)
    (tmpDeps tmpReqs : List (String × String)) (e : EdgeRec) :
    (addReqs names (addDeps names [] tmpDeps) tmpReqs).count e =
      if resolvedInReqsB names tmpReqs e = true then
        max ((addDeps names [] tmpDeps).count e) 1
      else (addDeps names [] tmpDeps).count e :=
  count_addReqs names tmpReqs (addDeps names [] tmpDeps) e

/-- **C4.** In the second load pass, every successfully resolved target
`T` in node `N`'s depends-on cell produces the edge `(T, N)` (inverted
direction), and every successfully resolved target `T` in node `N`'s
required-by cell produces the edge `(N, T)`, the latter added only when
that exact (source, target) pair is not already present — its final
multiplicity is `max` of its depends-on multiplicity and 1. -/
theorem C4_second_pass (names : List String)
    (tmpDeps tmpReqs : List (String × String)) :
    (∀ N raw T, (N, raw) ∈ tmpDeps → T ∈ parse_relations raw → T ∈ names →
      EdgeRec.mk T N ∈ addReqs names (addDeps names [] tmpDeps) tmpReqs) ∧
    (∀ N raw T, (N, raw) ∈ tmpReqs → T ∈ parse_relations raw → T ∈ names →
      EdgeRec.mk N T ∈ addReqs names (addDeps names [] tmpDeps) tmpReqs ∧
      (addReqs names (addDeps names [] tmpDeps) tmpReqs).count (EdgeRec.mk N T) =
        max ((addDeps names [] tmpDeps).count (EdgeRec.mk N T)) 1) := by
  refine ⟨?_, ?_⟩
  · intro N raw T h0 h1 h2
    exact mem_addReqs_of_mem _ (mem_addDeps_entry h0 h1 h2)
  · intro N raw T h0 h1 h2
    have hres : resolvedInReqsB names tmpReqs (EdgeRec.mk N T) = true := by
      simp only [resolvedInReqsB, List.any_eq_true]
      refine ⟨(N, raw), h0, ?_⟩
      have hA : ((parse_relations raw).any fun t => t == T) = true :=
        List.any_eq_true.2 ⟨T, h1, by simp⟩
      have hC : names.contains T = true := List.elem_iff.2 h2
      simp [hA, hC, h2]
    have hcount : (addReqs names (addDeps names [] tmpDeps) tmpReqs).count
        (EdgeRec.mk N T) =
        max ((addDeps names [] tmpDeps).count (EdgeRec.mk N T)) 1 := by
      rw [count_addReqs, if_pos hres]
    refine ⟨?_, hcount⟩
    apply List.count_pos_iff.1
    rw [hcount]
    omega

/-- **C4 witness**: both halves applied at a concrete second-pass
input. -/
theorem C4_second_pass_witness :
    EdgeRec.mk "B" "A" ∈
      addReqs ["A", "B"] (addDeps ["A", "B"] [] [("A", "B")]) [("B", "A")] ∧
    (addReqs ["A", "B"] (addDeps ["A", "B"] [] [("A", "B")])
        [("B", "A")]).count (EdgeRec.mk "B" "A") =
      max ((addDeps ["A", "B"] [] [("A", "B")]).count (EdgeRec.mk "B" "A")) 1 :=
  ⟨(C4_second_pass ["A", "B"] [("A", "B")] [("B", "A")]).1 "A" "B" "B"
      (by decide) (by decide) (by decide),
   ((C4_second_pass ["A", "B"] [("A", "B")] [("B", "A")]).2 "B" "A" "A"
      (by decide) (by decide) (by decide)).2⟩


/-! ### Loader error behaviour -/

theorem processRow_error {κ : Type} {cols : Cols} {rand : Nat → κ × κ × κ}
    {st : LoadSt κ} {r : Row} {err : PyErr}
    (h : processRow cols rand st r = .error err) : err = .attributeError := by
  unfold processRow at h
  cases hN : cols.hasName <;> cases hD : cols.hasDeps <;>
    cases hQ : cols.hasReqs <;> cases hnc : r.nameCell <;>
    cases hdc : r.depsCell <;> cases hqc : r.reqsCell <;>
    simp_all [pyStripE] <;> split_ifs at h <;> simp_all

theorem foldRows_error {κ : Type} {cols : Cols} {rand : Nat → κ × κ × κ} :
    ∀ {rows : List Row} {st : LoadSt κ} {err : PyErr},
      foldRows cols rand st rows = .error err → err = .attributeError := by
  intro rows
  induction rows with
  | nil =>
    intro st err h
    cases h
  | cons r rs ih =>
    intro st err h
    unfold foldRows at h
    cases hp : processRow cols rand st r with
    | error e2 =>
      rw [hp] at h
      cases h
      exact processRow_error hp
    | ok st1 =>
      rw [hp] at h
      exact ih h

theorem processRow_good {κ : Type} {cols : Cols} {rand : Nat → κ × κ × κ}
    {st : LoadSt κ} {r : Row} (hg : goodRow cols r) :
    ∃ st1, processRow cols rand st r = .ok st1 := by
  obtain ⟨hg1, hg2, hg3⟩ := hg
  unfold processRow
  cases hN : cols.hasName <;> cases hD : cols.hasDeps <;>
    cases hQ : cols.hasReqs <;> cases hnc : r.nameCell <;>
    cases hdc : r.depsCell <;> cases hqc : r.reqsCell <;>
    simp_all [pyStripE] <;> split_ifs <;> simp

theorem foldRows_good {κ : Type} {cols : Cols} {rand : Nat → κ × κ × κ} :
    ∀ {rows : List Row} {st : LoadSt κ},
      (∀ r ∈ rows, goodRow cols r) →
      ∃ st', foldRows cols rand st rows = .ok st' := by
  intro rows
  induction rows with
  | nil =>
    intro st _
    exact ⟨st, rfl⟩
  | cons r rs ih =>
    intro st h
    obtain ⟨st1, h1⟩ :=
      @processRow_good κ cols rand st r (h r (List.mem_cons.2 (Or.inl rfl)))
    obtain ⟨st', h2⟩ := @ih st1 (fun x hx => h x (List.mem_cons.2 (Or.inr hx)))
    refine ⟨st', ?_⟩
    unfold foldRows
    rw [h1]
    exact h2

/-- **C6 (amended).** `load` raises the not-found error exactly when
the input resource is missing; for every existing input in which each
row supplies a cell for the identity, depends-on and required-by
columns present in the header, no exception escapes — per-cell
anomalies degrade to defaults and the load completes.  (Rows missing
one of those cells raise `AttributeError`, the counterexample.) -/
theorem C6_amended_error_contract {κ : Type} (cols : Cols)
    (rand : Nat → κ × κ × κ) :
    load_network cols rand none = .error .fileNotFound ∧
    (∀ rows, load_network cols rand (some rows) ≠ .error .fileNotFound) ∧
    (∀ rows, (∀ r ∈ rows, goodRow cols r) →
      (load_network cols rand (some rows)).isOk = true) := by
  refine ⟨rfl, ?_, ?_⟩
  · intro rows hcontra
    cases hf : foldRows cols rand initSt rows with
    | error err =>
      have herr : err = .attributeError := foldRows_error hf
      simp only [load_network, hf, Except.error.injEq] at hcontra
      rw [herr] at hcontra
      cases hcontra
    | ok st =>
      simp only [load_network, hf] at hcontra
      cases hcontra
  · intro rows hrows
    obtain ⟨st', hst'⟩ := @foldRows_good κ cols rand rows initSt hrows
    simp only [load_network, hst']
    rfl

/-- **C6 witness**: the error contract applied to a concrete
well-formed input. -/
theorem C6_amended_error_contract_witness :
    (∀ r ∈ rowsDup, goodRow fixCols r) ∧
    (load_network fixCols (rand0 (κ := ℚ)) (some rowsDup)).isOk = true :=
  ⟨by decide,
   (C6_amended_error_contract fixCols (rand0 (κ := ℚ))).2.2 rowsDup (by decide)⟩


/-! ### Last-write characterization of the first pass -/

theorem lookupA_setA_self {β : Type} (l : List (String × β)) (k : String)
    (v : β) : lookupA (setA l k v) k = some v := by
  induction l with
  | nil =>
    show (if k = k then some v else lookupA [] k) = some v
    rw [if_pos rfl]
  | cons p t ih =>
    obtain ⟨a, b⟩ := p
    show lookupA (if a = k then (k, v) :: t else (a, b) :: setA t k v) k =
      some v
    by_cases h : a = k
    · rw [if_pos h]
      show (if k = k then some v else lookupA t k) = some v
      rw [if_pos rfl]
    · rw [if_neg h]
      show (if a = k then some b else lookupA (setA t k v) k) = some v
      rw [if_neg h, ih]

theorem lookupA_setA_ne {β : Type} (l : List (String × β)) {k k' : String}
    (v : β) (h : ¬ k = k') : lookupA (setA l k v) k' = lookupA l k' := by
  induction l with
  | nil =>
    show (if k = k' then some v else lookupA [] k') = lookupA [] k'
    rw [if_neg h]
  | cons p t ih =>
    obtain ⟨a, b⟩ := p
    show lookupA (if a = k then (k, v) :: t else (a, b) :: setA t k v) k' =
      lookupA ((a, b) :: t) k'
    by_cases ha : a = k
    · rw [if_pos ha]
      show (if k = k' then some v else lookupA t k') =
        (if a = k' then some b else lookupA t k')
      rw [if_neg h, if_neg (by rw [ha]; exact h)]
    · rw [if_neg ha]
      show (if a = k' then some b else lookupA (setA t k v) k') =
        (if a = k' then some b else lookupA t k')
      by_cases ha' : a = k'
      · rw [if_pos ha', if_pos ha']
      · rw [if_neg ha', if_neg ha', ih]

theorem getLast?_cons_or {α : Type} (d : α) (l : List α) :
    (d :: l).getLast? = l.getLast?.or (some d) := by
  cases l with
  | nil => rfl
  | cons a t =>
    rw [List.getLast?_cons_cons]
    cases hl : (a :: t).getLast? with
    | none =>
      exfalso
      have hs : (a :: t).getLast?.isSome = true :=
        List.getLast?_isSome.2 (by simp)
      rw [hl] at hs
      cases hs
    | some y => rfl

theorem nextSt_tempDeps {κ : Type} (cols : Cols) (rand : Nat → κ × κ × κ)
    (st : LoadSt κ) (r : Row) (nm : String) (hnm : ¬ nm = "") :
    lookupA (nextSt cols rand st r).tempDeps nm =
      if rowNameT cols r = nm ∧ ¬ rowDepsT cols r = "" then
        some (rowDepsT cols r)
      else lookupA st.tempDeps nm := by
  simp only [nextSt]
  by_cases hn : rowNameT cols r = ""
  · rw [if_pos hn, if_neg (by rw [hn]; rintro ⟨h1, -⟩; exact hnm h1.symm)]
  · rw [if_neg hn]
    by_cases hq : rowReqsT cols r = ""
    · rw [if_pos hq]
      by_cases hd : rowDepsT cols r = ""
      · rw [if_pos hd, if_neg (by rintro ⟨-, h2⟩; exact h2 hd)]
      · rw [if_neg hd]
        by_cases he : rowNameT cols r = nm
        · rw [he, lookupA_setA_self, if_pos ⟨rfl, hd⟩]
        · rw [lookupA_setA_ne _ _ he,
            if_neg (by rintro ⟨h1, -⟩; exact he h1)]
    · rw [if_neg hq]
      by_cases hd : rowDepsT cols r = ""
      · rw [if_pos hd, if_neg (by rintro ⟨-, h2⟩; exact h2 hd)]
      · rw [if_neg hd]
        by_cases he : rowNameT cols r = nm
        · rw [he, lookupA_setA_self, if_pos ⟨rfl, hd⟩]
        · rw [lookupA_setA_ne _ _ he,
            if_neg (by rintro ⟨h1, -⟩; exact he h1)]

theorem nextSt_tempReqs {κ : Type} (cols : Cols) (rand : Nat → κ × κ × κ)
    (st : LoadSt κ) (r : Row) (nm : String) (hnm : ¬ nm = "") :
    lookupA (nextSt cols rand st r).tempReqs nm =
      if rowNameT cols r = nm ∧ ¬ rowReqsT cols r = "" then
        some (rowReqsT cols r)
      else lookupA st.tempReqs nm := by
  simp only [nextSt]
  by_cases hn : rowNameT cols r = ""
  · rw [if_pos hn, if_neg (by rw [hn]; rintro ⟨h1, -⟩; exact hnm h1.symm)]
  · rw [if_neg hn]
    by_cases hq : rowReqsT cols r = ""
    · rw [if_pos hq]
      by_cases hd : rowDepsT cols r = ""
      · rw [if_pos hd, if_neg (by rintro ⟨-, h2⟩; exact h2 hq)]
      · rw [if_neg hd, if_neg (by rintro ⟨-, h2⟩; exact h2 hq)]
    · rw [if_neg hq]
      by_cases hd : rowDepsT cols r = ""
      · rw [if_pos hd]
        by_cases he : rowNameT cols r = nm
        · rw [he, lookupA_setA_self, if_pos ⟨rfl, hq⟩]
        · rw [lookupA_setA_ne _ _ he,
            if_neg (by rintro ⟨h1, -⟩; exact he h1)]
      · rw [if_neg hd]
        by_cases he : rowNameT cols r = nm
        · rw [he, lookupA_setA_self, if_pos ⟨rfl, hq⟩]
        · rw [lookupA_setA_ne _ _ he,
            if_neg (by rintro ⟨h1, -⟩; exact he h1)]

theorem nextSt_nodes {κ : Type} (cols : Cols) (rand : Nat → κ × κ × κ)
    (st : LoadSt κ) (r : Row) (nm : String) (hnm : ¬ nm = "") :
    lookupA (nextSt cols rand st r).nodes nm =
      if rowNameT cols r = nm then
        some (mkNodeRec cols (rand st.counter) nm r)
      else lookupA st.nodes nm := by
  simp only [nextSt]
  have hmain : lookupA (setA st.nodes (rowNameT cols r)
      (mkNodeRec cols (rand st.counter) (rowNameT cols r) r)) nm =
      if rowNameT cols r = nm then
        some (mkNodeRec cols (rand st.counter) nm r)
      else lookupA st.nodes nm := by
    by_cases he : rowNameT cols r = nm
    · rw [he, if_pos rfl]
      exact lookupA_setA_self _ _ _
    · rw [if_neg he, lookupA_setA_ne _ _ he]
  by_cases hn : rowNameT cols r = ""
  · rw [if_pos hn, if_neg (by rw [hn]; intro h1; exact hnm h1.symm)]
  · rw [if_neg hn]
    by_cases hq : rowReqsT cols r = ""
    · rw [if_pos hq]
      by_cases hd : rowDepsT cols r = ""
      · rw [if_pos hd]
        exact hmain
      · rw [if_neg hd]
        exact hmain
    · rw [if_neg hq]
      by_cases hd : rowDepsT cols r = ""
      · rw [if_pos hd]
        exact hmain
      · rw [if_neg hd]
        exact hmain

theorem attrsOf_mkNodeRec {κ : Type} (cols : Cols) (pos : κ × κ × κ)
    (nm : String) (r : Row) :
    attrsOf (mkNodeRec cols pos nm r) = attrsFromRow cols nm r := rfl

theorem foldRows_char {κ : Type} {cols : Cols} {rand : Nat → κ × κ × κ} :
    ∀ {rows : List Row} {st st' : LoadSt κ},
      foldRows cols rand st rows = .ok st' → ∀ nm, ¬ nm = "" →
      lookupA st'.tempDeps nm =
        ((depsContrib cols rows nm).getLast?).or (lookupA st.tempDeps nm) ∧
      lookupA st'.tempReqs nm =
        ((reqsContrib cols rows nm).getLast?).or (lookupA st.tempReqs nm) ∧
      (lookupA st'.nodes nm).map attrsOf =
        (((rowsNamed cols rows nm).map (attrsFromRow cols nm)).getLast?).or
          ((lookupA st.nodes nm).map attrsOf) := by
  intro rows
  induction rows with
  | nil =>
    intro st st' h nm hnm
    cases h
    refine ⟨?_, ?_, ?_⟩ <;> simp [depsContrib, reqsContrib, rowsNamed]
  | cons r rs ih =>
    intro st st' h nm hnm
    unfold foldRows at h
    cases hp : processRow cols rand st r with
    | error e =>
      rw [hp] at h
      cases h
    | ok st1 =>
      rw [hp] at h
      have hst1 : st1 = nextSt cols rand st r := processRow_ok_eq hp
      obtain ⟨ih1, ih2, ih3⟩ := ih h nm hnm
      subst hst1
      rw [nextSt_tempDeps cols rand st r nm hnm] at ih1
      rw [nextSt_tempReqs cols rand st r nm hnm] at ih2
      rw [nextSt_nodes cols rand st r nm hnm] at ih3
      refine ⟨?_, ?_, ?_⟩
      · rw [ih1]
        by_cases hc : rowNameT cols r = nm ∧ ¬ rowDepsT cols r = ""
        · rw [if_pos hc]
          have hcontrib : depsContrib cols (r :: rs) nm =
              rowDepsT cols r :: depsContrib cols rs nm := by
            simp only [depsContrib, List.filterMap_cons, if_pos hc]
          rw [hcontrib, getLast?_cons_or, Option.or_assoc]
          rfl
        · rw [if_neg hc]
          have hcontrib : depsContrib cols (r :: rs) nm =
              depsContrib cols rs nm := by
            simp only [depsContrib, List.filterMap_cons, if_neg hc]
          rw [hcontrib]
      · rw [ih2]
        by_cases hc : rowNameT cols r = nm ∧ ¬ rowReqsT cols r = ""
        · rw [if_pos hc]
          have hcontrib : reqsContrib cols (r :: rs) nm =
              rowReqsT cols r :: reqsContrib cols rs nm := by
            simp only [reqsContrib, List.filterMap_cons, if_pos hc]
          rw [hcontrib, getLast?_cons_or, Option.or_assoc]
          rfl
        · rw [if_neg hc]
          have hcontrib : reqsContrib cols (r :: rs) nm =
              reqsContrib cols rs nm := by
            simp only [reqsContrib, List.filterMap_cons, if_neg hc]
          rw [hcontrib]
      · rw [ih3]
        by_cases hc : rowNameT cols r = nm
        · rw [if_pos hc]
          have hnamed : rowsNamed cols (r :: rs) nm = r :: rowsNamed cols rs nm := by
            simp only [rowsNamed, List.filter_cons]
            rw [if_pos (by simp [hc])]
          rw [hnamed, List.map_cons, getLast?_cons_or, Option.or_assoc]
          rfl
        · rw [if_neg hc]
          have hnamed : rowsNamed cols (r :: rs) nm = rowsNamed cols rs nm := by
            simp only [rowsNamed, List.filter_cons]
            rw [if_neg (by simp [hc])]
          rw [hnamed]

/-- **C10.** After the first pass completes, the relation text stored
for a name is the last NON-EMPTY depends-on (resp. required-by) cell
seen for it — an empty later cell does not erase an earlier non-empty
one — while the node's other attributes come from the last row bearing
that name. -/
theorem C10_last_nonempty_text {κ : Type} (cols : Cols)
    (rand : Nat → κ × κ × κ) (rows : List Row) (st' : LoadSt κ)
    (h : foldRows cols rand initSt rows = .ok st') (nm : String)
    (hnm : ¬ nm = "") :
    lookupA st'.tempDeps nm = (depsContrib cols rows nm).getLast? ∧
    lookupA st'.tempReqs nm = (reqsContrib cols rows nm).getLast? ∧
    (lookupA st'.nodes nm).map attrsOf =
      ((rowsNamed cols rows nm).map (attrsFromRow cols nm)).getLast? := by
  obtain ⟨h1, h2, h3⟩ := foldRows_char h nm hnm
  refine ⟨?_, ?_, ?_⟩ <;> simp_all [initSt, lookupA]

/-- **C10 witness**: under the two-row input whose second `A` row has
an empty depends-on cell, the stored text is still the first row's
`"B"`, while the node attributes come from the second row. -/
theorem C10_last_nonempty_text_witness :
    foldRows fixCols (rand0 (κ := ℚ)) initSt rowsTwice = .ok stTwice ∧
    (lookupA stTwice.tempDeps "A" =
      (depsContrib fixCols rowsTwice "A").getLast? ∧
    lookupA stTwice.tempReqs "A" =
      (reqsContrib fixCols rowsTwice "A").getLast? ∧
    (lookupA stTwice.nodes "A").map attrsOf =
      ((rowsNamed fixCols rowsTwice "A").map
        (attrsFromRow fixCols "A")).getLast?) := by
  have h : foldRows fixCols (rand0 (κ := ℚ)) initSt rowsTwice =
      .ok stTwice := by decide
  exact ⟨h, C10_last_nonempty_text fixCols rand0 rowsTwice stTwice h "A"
    (by decide)⟩


/-! ### Frame property of the layout engine -/

theorem list_set_same {α : Type} :
    ∀ (l : List α) (i : Nat) (a : α), l[i]? = some a → l.set i a = l := by
  intro l
  induction l with
  | nil =>
    intro i a h
    cases h
  | cons x t ih =>
    intro i a h
    cases i with
    | zero =>
      simp only [List.getElem?_cons_zero, Option.some.injEq] at h
      rw [List.set_cons_zero, h]
    | succ j =>
      simp only [List.getElem?_cons_succ] at h
      rw [List.set_cons_succ, ih j a h]

theorem map_attrsOf_set {κ : Type} (l : List (NodeRec κ)) (i : Nat)
    (n1 m : NodeRec κ) (hv : l[i]? = some n1)
    (hm : attrsOf m = attrsOf n1) :
    (l.set i m).map attrsOf = l.map attrsOf := by
  rw [List.map_set, hm]
  apply list_set_same
  simp [List.getElem?_map, hv]

theorem map_attrsOf_repel {κ : Type} [Field κ] (sqrtF : κ → κ)
    (l : List (NodeRec κ)) (i : Nat) :
    (repel sqrtF l i).map attrsOf = l.map attrsOf := by
  unfold repel
  cases hv : l[i]? with
  | none => rfl
  | some n1 => exact map_attrsOf_set l i n1 _ hv rfl

theorem map_attrsOf_repelFold {κ : Type} [Field κ] (sqrtF : κ → κ)
    (idxs : List Nat) :
    ∀ l : List (NodeRec κ),
      (idxs.foldl (repel sqrtF) l).map attrsOf = l.map attrsOf := by
  induction idxs with
  | nil => intro l; rfl
  | cons i t ih =>
    intro l
    rw [List.foldl_cons, ih, map_attrsOf_repel]

theorem map_attrsOf_updIdx {κ : Type} (l : List (NodeRec κ)) (i : Nat)
    (g : NodeRec κ → NodeRec κ) (hg : ∀ n, attrsOf (g n) = attrsOf n) :
    (updIdx l i g).map attrsOf = l.map attrsOf := by
  unfold updIdx
  cases hv : l[i]? with
  | none => rfl
  | some v => exact map_attrsOf_set l i v _ hv (hg v)

theorem map_attrsOf_springEdge {κ : Type} [Field κ] (sqrtF : κ → κ)
    (l : List (NodeRec κ)) (e : EdgeRec) :
    (springEdge sqrtF l e).map attrsOf = l.map attrsOf := by
  unfold springEdge
  split
  · split
    · show (updIdx (updIdx l _ _) _ _).map attrsOf = List.map attrsOf l
      refine (map_attrsOf_updIdx _ _ _ ?_).trans
        (map_attrsOf_updIdx _ _ _ ?_) <;> intro n <;> rfl
    · rfl
  · rfl

theorem map_attrsOf_springFold {κ : Type} [Field κ] (sqrtF : κ → κ)
    (edges : List EdgeRec) :
    ∀ l : List (NodeRec κ),
      (edges.foldl (springEdge sqrtF) l).map attrsOf = l.map attrsOf := by
  induction edges with
  | nil => intro l; rfl
  | cons e t ih =>
    intro l
    rw [List.foldl_cons, ih, map_attrsOf_springEdge]

theorem map_attrsOf_layoutIter {κ : Type} [Field κ] (sqrtF : κ → κ)
    (l : List (NodeRec κ)) (edges : List EdgeRec) :
    (layoutIter sqrtF l edges).map attrsOf = l.map attrsOf := by
  unfold layoutIter repulsionPass
  rw [map_attrsOf_springFold, map_attrsOf_repelFold]

/-- **C9.** The layout engine only mutates the three position fields:
for every node list, edge list and layout type, the edge list is
unchanged and the node list keeps its length, order, identities and
every non-position attribute (everything `attrsOf` projects). -/
theorem C9_layout_frame {κ : Type} [Field κ] (sqrtF : κ → κ)
    (nodes : List (NodeRec κ)) (edges : List EdgeRec)
    (layout_type : String) :
    (apply_layout sqrtF nodes edges layout_type).2 = edges ∧
    ((apply_layout sqrtF nodes edges layout_type).1).map attrsOf =
      nodes.map attrsOf := by
  constructor
  · unfold apply_layout
    split <;> rfl
  · unfold apply_layout
    split
    · show ((fun ns => layoutIter sqrtF ns edges)^[ITERATIONS] nodes).map attrsOf =
        nodes.map attrsOf
      generalize ITERATIONS = n
      induction n with
      | zero => rfl
      | succ k ih =>
        rw [Function.iterate_succ_apply', map_attrsOf_layoutIter, ih]
    · rfl


/-! ### Two-node distance recurrence for one layout iteration -/

theorem repel_pair0 (s : ℝ → ℝ) (a b : NodeRec ℝ) :
    ∃ a1 : NodeRec ℝ, repel s [a, b] 0 = [a1, b] ∧
      attrsOf a1 = attrsOf a ∧
      b.x - a1.x = (b.x - a.x) *
        (1 + (1 / 2) / (nodeDist s a b + 1 / 10) ^ 3) ∧
      b.y - a1.y = (b.y - a.y) *
        (1 + (1 / 2) / (nodeDist s a b + 1 / 10) ^ 3) ∧
      b.z - a1.z = (b.z - a.z) *
        (1 + (1 / 2) / (nodeDist s a b + 1 / 10) ^ 3) := by
  refine ⟨_, rfl, rfl, ?_, ?_, ?_⟩ <;>
  · unfold nodeDist REPULSION_STRENGTH
    rw [show List.range ([a, b] : List (NodeRec ℝ)).length = [0, 1] from rfl]
    simp only [List.foldl_cons, List.foldl_nil, List.getElem?_cons_zero,
      List.getElem?_cons_succ, List.getElem_cons_zero, if_true, if_false,
      reduceIte]
    rw [show (a.x - b.x) * (a.x - b.x) + (a.y - b.y) * (a.y - b.y) +
        (a.z - b.z) * (a.z - b.z) =
        (b.x - a.x) * (b.x - a.x) + (b.y - a.y) * (b.y - a.y) +
        (b.z - a.z) * (b.z - a.z) from by ring]
    generalize s ((b.x - a.x) * (b.x - a.x) + (b.y - a.y) * (b.y - a.y) +
      (b.z - a.z) * (b.z - a.z)) = t
    rw [if_neg (by decide : ¬ (1 : Nat) = 0)]
    rw [show (t + 1 / 10) ^ 3 = (t + 1 / 10) * ((t + 1 / 10) * (t + 1 / 10))
      from by ring]
    simp only [div_eq_mul_inv, mul_inv]
    ring

theorem repel_pair1 (s : ℝ → ℝ) (a b : NodeRec ℝ) :
    ∃ b1 : NodeRec ℝ, repel s [a, b] 1 = [a, b1] ∧
      attrsOf b1 = attrsOf b ∧
      b1.x - a.x = (b.x - a.x) *
        (1 + (1 / 2) / (nodeDist s a b + 1 / 10) ^ 3) ∧
      b1.y - a.y = (b.y - a.y) *
        (1 + (1 / 2) / (nodeDist s a b + 1 / 10) ^ 3) ∧
      b1.z - a.z = (b.z - a.z) *
        (1 + (1 / 2) / (nodeDist s a b + 1 / 10) ^ 3) := by
  refine ⟨_, rfl, rfl, ?_, ?_, ?_⟩ <;>
  · unfold nodeDist REPULSION_STRENGTH
    rw [show List.range ([a, b] : List (NodeRec ℝ)).length = [0, 1] from rfl]
    simp only [List.foldl_cons, List.foldl_nil, List.getElem?_cons_zero,
      List.getElem?_cons_succ, List.getElem_cons_zero, List.getElem_cons_succ,
      reduceIte]
    rw [if_neg (by decide : ¬ (0 : Nat) = 1)]
    generalize s ((b.x - a.x) * (b.x - a.x) + (b.y - a.y) * (b.y - a.y) +
      (b.z - a.z) * (b.z - a.z)) = t
    rw [show (t + 1 / 10) ^ 3 = (t + 1 / 10) * ((t + 1 / 10) * (t + 1 / 10))
      from by ring]
    simp only [div_eq_mul_inv, mul_inv]
    ring

theorem spring_pair (s : ℝ → ℝ) (a b : NodeRec ℝ) (hab : ¬ a.name = b.name) :
    ∃ a2 b2 : NodeRec ℝ,
      springEdge s [a, b] (EdgeRec.mk a.name b.name) = [a2, b2] ∧
      attrsOf a2 = attrsOf a ∧ attrsOf b2 = attrsOf b ∧
      b2.x - a2.x = (b.x - a.x) *
        (1 - (nodeDist s a b + 1 / 10 - SPRING_LENGTH) * (1 / 10) /
          (nodeDist s a b + 1 / 10) * 2) ∧
      b2.y - a2.y = (b.y - a.y) *
        (1 - (nodeDist s a b + 1 / 10 - SPRING_LENGTH) * (1 / 10) /
          (nodeDist s a b + 1 / 10) * 2) ∧
      b2.z - a2.z = (b.z - a.z) *
        (1 - (nodeDist s a b + 1 / 10 - SPRING_LENGTH) * (1 / 10) /
          (nodeDist s a b + 1 / 10) * 2) := by
  have h1 : ([a, b] : List (NodeRec ℝ)).findIdx?
      (fun n => n.name == (EdgeRec.mk a.name b.name).source) = some 0 := by
    simp [List.findIdx?_cons]
  have h2 : ([a, b] : List (NodeRec ℝ)).findIdx?
      (fun n => n.name == (EdgeRec.mk a.name b.name).target) = some 1 := by
    simp [List.findIdx?_cons, hab]
  unfold springEdge
  rw [h1, h2]
  refine ⟨_, _, rfl, rfl, rfl, ?_, ?_, ?_⟩ <;>
  · unfold nodeDist SPRING_LENGTH
    simp only [updIdx, List.getElem?_cons_zero, List.getElem?_cons_succ,
      List.getElem_cons_zero, List.getElem_cons_succ, List.set_cons_zero,
      List.set_cons_succ]
    generalize s ((b.x - a.x) * (b.x - a.x) + (b.y - a.y) * (b.y - a.y) +
      (b.z - a.z) * (b.z - a.z)) = t
    simp only [div_eq_mul_inv, mul_inv]
    ring

theorem nodeDist_eq_of_scale (a b a2 b2 : NodeRec ℝ) (k : ℝ) (hk : 0 ≤ k)
    (hx : b2.x - a2.x = (b.x - a.x) * k)
    (hy : b2.y - a2.y = (b.y - a.y) * k)
    (hz : b2.z - a2.z = (b.z - a.z) * k) :
    nodeDist Real.sqrt a2 b2 = nodeDist Real.sqrt a b * k := by
  unfold nodeDist
  rw [hx, hy, hz]
  rw [show (b.x - a.x) * k * ((b.x - a.x) * k) +
      (b.y - a.y) * k * ((b.y - a.y) * k) +
      (b.z - a.z) * k * ((b.z - a.z) * k) =
      ((b.x - a.x) * (b.x - a.x) + (b.y - a.y) * (b.y - a.y) +
        (b.z - a.z) * (b.z - a.z)) * k ^ 2 from by ring]
  rw [Real.sqrt_mul (add_nonneg (add_nonneg (mul_self_nonneg _)
    (mul_self_nonneg _)) (mul_self_nonneg _)), Real.sqrt_sq hk]


theorem fRep_eq (d : ℝ) :
    fRep d = d * (1 + (1 / 2) / (d + 1 / 10) ^ 3) := by
  unfold fRep
  ring

theorem pairDist_recurrence (a b : NodeRec ℝ) (hab : ¬ a.name = b.name) :
    pairDistAfterIter Real.sqrt a b = twoNodeDist (nodeDist Real.sqrt a b) := by
  obtain ⟨a1, hA, hAattr, hAx, hAy, hAz⟩ := repel_pair0 Real.sqrt a b
  have hd0 : 0 ≤ nodeDist Real.sqrt a b := Real.sqrt_nonneg _
  have hK0 : 0 ≤ 1 + (1 / 2) / (nodeDist Real.sqrt a b + 1 / 10) ^ 3 := by
    have h1 : (0 : ℝ) < nodeDist Real.sqrt a b + 1 / 10 := by linarith
    positivity
  have hd1 : nodeDist Real.sqrt a1 b = nodeDist Real.sqrt a b *
      (1 + (1 / 2) / (nodeDist Real.sqrt a b + 1 / 10) ^ 3) :=
    nodeDist_eq_of_scale a b a1 b _ hK0 hAx hAy hAz
  have hd1f : nodeDist Real.sqrt a1 b = fRep (nodeDist Real.sqrt a b) := by
    rw [hd1, ← fRep_eq]
  obtain ⟨b1, hB, hBattr, hBx, hBy, hBz⟩ := repel_pair1 Real.sqrt a1 b
  have hd1nn : 0 ≤ nodeDist Real.sqrt a1 b := Real.sqrt_nonneg _
  have hK1 : 0 ≤ 1 + (1 / 2) / (nodeDist Real.sqrt a1 b + 1 / 10) ^ 3 := by
    have h1 : (0 : ℝ) < nodeDist Real.sqrt a1 b + 1 / 10 := by linarith
    positivity
  have hd2 : nodeDist Real.sqrt a1 b1 = nodeDist Real.sqrt a1 b *
      (1 + (1 / 2) / (nodeDist Real.sqrt a1 b + 1 / 10) ^ 3) :=
    nodeDist_eq_of_scale a1 b a1 b1 _ hK1 hBx hBy hBz
  have hd2f : nodeDist Real.sqrt a1 b1 =
      fRep (fRep (nodeDist Real.sqrt a b)) := by
    rw [hd2, hd1f, ← fRep_eq]
  have ha1name : a1.name = a.name := congrArg (fun p => p.1) hAattr
  have hb1name : b1.name = b.name := congrArg (fun p => p.1) hBattr
  have hab1 : ¬ a1.name = b1.name := by
    rw [ha1name, hb1name]
    exact hab
  obtain ⟨a2, b2, hC, hCa, hCb, hCx, hCy, hCz⟩ :=
    spring_pair Real.sqrt a1 b1 hab1
  have hd2nn : 0 ≤ nodeDist Real.sqrt a1 b1 := Real.sqrt_nonneg _
  have hDpos : (0 : ℝ) < nodeDist Real.sqrt a1 b1 + 1 / 10 := by linarith
  have hDne : nodeDist Real.sqrt a1 b1 + 1 / 10 ≠ 0 := ne_of_gt hDpos
  have hMeq : (1 : ℝ) -
      (nodeDist Real.sqrt a1 b1 + 1 / 10 - SPRING_LENGTH) * (1 / 10) /
        (nodeDist Real.sqrt a1 b1 + 1 / 10) * 2 =
      (4 * (nodeDist Real.sqrt a1 b1 + 1 / 10) + 3) /
        (5 * (nodeDist Real.sqrt a1 b1 + 1 / 10)) := by
    unfold SPRING_LENGTH
    field_simp
    ring
  have hM : 0 ≤ (1 : ℝ) -
      (nodeDist Real.sqrt a1 b1 + 1 / 10 - SPRING_LENGTH) * (1 / 10) /
        (nodeDist Real.sqrt a1 b1 + 1 / 10) * 2 := by
    rw [hMeq]
    positivity
  have hd3 : nodeDist Real.sqrt a2 b2 = nodeDist Real.sqrt a1 b1 *
      ((1 : ℝ) - (nodeDist Real.sqrt a1 b1 + 1 / 10 - SPRING_LENGTH) *
        (1 / 10) / (nodeDist Real.sqrt a1 b1 + 1 / 10) * 2) :=
    nodeDist_eq_of_scale a1 b1 a2 b2 _ hM hCx hCy hCz
  have hd3g : nodeDist Real.sqrt a2 b2 =
      gSpr (nodeDist Real.sqrt a1 b1) := by
    rw [hd3, hMeq]
    unfold gSpr
    ring
  have hRep : repulsionPass Real.sqrt [a, b] = [a1, b1] := by
    unfold repulsionPass
    rw [show List.range ([a, b] : List (NodeRec ℝ)).length = [0, 1] from rfl,
      List.foldl_cons, List.foldl_cons, List.foldl_nil, hA, hB]
  have hIter : layoutIter Real.sqrt [a, b] [EdgeRec.mk a.name b.name] =
      [a2, b2] := by
    unfold layoutIter
    rw [hRep, List.foldl_cons, List.foldl_nil,
      show (EdgeRec.mk a.name b.name) = EdgeRec.mk a1.name b1.name from by
        rw [ha1name, hb1name]]
    exact hC
  unfold pairDistAfterIter
  rw [hIter]
  show nodeDist Real.sqrt a2 b2 = twoNodeDist (nodeDist Real.sqrt a b)
  rw [hd3g, hd2f]
  rfl


/-- **C3 (counterexample).** Two nodes joined by one edge, at fixed
initial positions exactly 3.0 apart (the spring rest length): after one
full layout iteration their distance is strictly greater than 3.0, so
the distance moved away from 3.0 rather than monotonically toward it. -/
theorem C3_counterexample :
    nodeDist Real.sqrt (mkPosNode "A" (0 : ℝ) 0 0) (mkPosNode "B" 3 0 0) = 3 ∧
    3 < pairDistAfterIter Real.sqrt (mkPosNode "A" (0 : ℝ) 0 0)
      (mkPosNode "B" 3 0 0) := by
  have hd : nodeDist Real.sqrt (mkPosNode "A" (0 : ℝ) 0 0)
      (mkPosNode "B" 3 0 0) = 3 := by
    show Real.sqrt (((3 : ℝ) - 0) * ((3 : ℝ) - 0) +
      ((0 : ℝ) - 0) * ((0 : ℝ) - 0) + ((0 : ℝ) - 0) * ((0 : ℝ) - 0)) = 3
    rw [show ((3 : ℝ) - 0) * ((3 : ℝ) - 0) +
      ((0 : ℝ) - 0) * ((0 : ℝ) - 0) + ((0 : ℝ) - 0) * ((0 : ℝ) - 0) =
      (3 : ℝ) ^ 2 from by norm_num, Real.sqrt_sq (by norm_num)]
  refine ⟨hd, ?_⟩
  rw [pairDist_recurrence _ _ (by decide), hd]
  unfold twoNodeDist fRep gSpr
  norm_num

/-- **C3 (amended).** For two nodes joined by one edge with fixed
initial positions whose distance lies in [0.1, 10], the distance after
one full layout iteration is strictly positive — it never overshoots to
a negative or zero distance.  (Monotone movement toward 3.0 fails: at
initial distance exactly 3.0 the distance strictly increases.) -/
theorem C3_amended_positive_distance (a b : NodeRec ℝ)
    (hab : ¬ a.name = b.name)
    (h1 : 1 / 10 ≤ nodeDist Real.sqrt a b)
    (h2 : nodeDist Real.sqrt a b ≤ 10) :
    0 < pairDistAfterIter Real.sqrt a b := by
  rw [pairDist_recurrence a b hab]
  have hd : 0 < nodeDist Real.sqrt a b := lt_of_lt_of_le (by norm_num) h1
  have hfR : ∀ d : ℝ, 0 < d → 0 < fRep d := by
    intro d hdpos
    rw [fRep_eq]
    have hD : (0 : ℝ) < d + 1 / 10 := by linarith
    positivity
  have hgS : ∀ d : ℝ, 0 < d → 0 < gSpr d := by
    intro d hdpos
    unfold gSpr
    have hD : (0 : ℝ) < d + 1 / 10 := by linarith
    positivity
  exact hgS _ (hfR _ (hfR _ hd))

/-- **C3 witness**: the amended positivity applied at two concrete
nodes one unit apart. -/
theorem C3_amended_positive_distance_witness :
    (1 / 10 ≤ nodeDist Real.sqrt (mkPosNode "A" (0 : ℝ) 0 0)
        (mkPosNode "B" 1 0 0) ∧
      nodeDist Real.sqrt (mkPosNode "A" (0 : ℝ) 0 0)
        (mkPosNode "B" 1 0 0) ≤ 10) ∧
    0 < pairDistAfterIter Real.sqrt (mkPosNode "A" (0 : ℝ) 0 0)
      (mkPosNode "B" 1 0 0) := by
  have hd : nodeDist Real.sqrt (mkPosNode "A" (0 : ℝ) 0 0)
      (mkPosNode "B" 1 0 0) = 1 := by
    show Real.sqrt (((1 : ℝ) - 0) * ((1 : ℝ) - 0) +
      ((0 : ℝ) - 0) * ((0 : ℝ) - 0) + ((0 : ℝ) - 0) * ((0 : ℝ) - 0)) = 1
    rw [show ((1 : ℝ) - 0) * ((1 : ℝ) - 0) +
      ((0 : ℝ) - 0) * ((0 : ℝ) - 0) + ((0 : ℝ) - 0) * ((0 : ℝ) - 0) =
      (1 : ℝ) ^ 2 from by norm_num, Real.sqrt_sq (by norm_num)]
  constructor
  · rw [hd]
    constructor <;> norm_num
  · exact C3_amended_positive_distance _ _ (by decide)
      (by rw [hd]; norm_num) (by rw [hd]; norm_num)


/-- **C9 witness**: the frame property applied at a concrete node and
edge list over `ℚ`. -/
theorem C9_layout_frame_witness :
    (apply_layout (κ := ℚ) id [nodeSelfA] [EdgeRec.mk "A" "A"] "force").2 =
      [EdgeRec.mk "A" "A"] ∧
    ((apply_layout (κ := ℚ) id [nodeSelfA]
      [EdgeRec.mk "A" "A"] "force").1).map attrsOf =
      [nodeSelfA].map attrsOf :=
  C9_layout_frame id [nodeSelfA] [EdgeRec.mk "A" "A"] "force"

end Career
